import Mathlib

/-!
Verification of the session-scoped RAG orchestration layer of the
`rag_private_document_chatbot` repository (`src/rag.py`, `src/tasks.py`,
`src/config.py`).

The embedding models:
* the text chunker: `RecursiveCharacterTextSplitter(chunk_size=1000,
  chunk_overlap=100)` as instantiated in `RAGService.process_file`
  (rag.py:107-110), ported operation-by-operation from
  `langchain_text_splitters` (`_split_text_with_regex`,
  `TextSplitter._merge_splits`, `RecursiveCharacterTextSplitter._split_text`)
  at the configuration fixed by the source: `keep_separator=True`,
  `is_separator_regex=False`, `length_function=len`, `strip_whitespace=True`,
  separators `["\n\n", "\n", " ", ""]`;
* the per-session state: the Chroma collection persisted at
  `os.path.join(settings.CHROMA_PERSIST_DIRECTORY, session_id)`, the
  Redis-backed conversation history keyed by `session_id` with `ttl=3600`,
  and the uploaded files on disk;
* `RAGService.process_file`, `RAGService.get_answer`,
  `RAGService.clear_session` and the Celery task `process_file_task`.

Text is represented as `List Char` (Python `str` under `len`-based
measurement, one unit per character).
-/

/-- Equality of fallible results is decidable (used to evaluate the
operations on concrete inputs). -/
instance {ε α : Type} [DecidableEq ε] [DecidableEq α] :
    DecidableEq (Except ε α) := fun x y =>
  match x, y with
  | .ok a, .ok b =>
      if h : a = b then .isTrue (by rw [h])
      else .isFalse (by intro he; cases he; exact h rfl)
  | .error a, .error b =>
      if h : a = b then .isTrue (by rw [h])
      else .isFalse (by intro he; cases he; exact h rfl)
  | .ok _, .error _ => .isFalse (by intro h; cases h)
  | .error _, .ok _ => .isFalse (by intro h; cases h)

/-- A piece of text: Python `str` as a list of characters. -/
abbrev Text := List Char

/-- One conversation turn: a (question, answer) pair, as recorded by
`ConversationBufferMemory.save_context` (one human message plus one AI
message per successful chain invocation). -/
abbrev Turn := String × String

/-! ### The chunker: `RecursiveCharacterTextSplitter` -/

/-- Whether `sep` is a prefix of the text (helper for literal substring
search, standing for `re.search(re.escape(sep), text)` position tests). -/
def startsWithL : Text → Text → Bool
  | _, [] => true
  | [], _ :: _ => false
  | c :: cs, d :: ds => c = d && startsWithL cs ds

/-- Whether the literal separator `sep` occurs anywhere in `text`
(`re.search(re.escape(sep), text)` in
`RecursiveCharacterTextSplitter._split_text`). -/
def occursIn (text sep : Text) : Bool :=
  match text with
  | [] => startsWithL [] sep
  | _ :: rest => startsWithL text sep || occursIn rest sep

/-- Split `text` at every non-overlapping leftmost occurrence of the literal
separator `sep` (the piece list of `re.split`, separators omitted).  The
fuel argument is an upper bound on the number of characters consumed; with
fuel ≥ `text.length + 1` and `sep ≠ []` it is never exhausted. -/
def splitOnFuel (sep : Text) : Nat → Text → List Text
  | 0, t => [t]
  | _ + 1, [] => [[]]
  | fuel + 1, c :: rest =>
    if sep ≠ [] ∧ startsWithL (c :: rest) sep then
      [] :: splitOnFuel sep fuel ((c :: rest).drop sep.length)
    else
      match splitOnFuel sep fuel rest with
      | [] => [[c]]
      | p :: ps => (c :: p) :: ps

/-- Split on a literal separator, keeping nothing. -/
def splitOnList (sep text : Text) : List Text :=
  splitOnFuel sep (text.length + 1) text

/-- `_split_text_with_regex(text, re.escape(sep), keep_separator=True)`:
split on the separator, reattach each separator occurrence to the front of
the following piece, and drop empty pieces.  For `sep = ""` this is
`list(text)` (single characters), empties dropped. -/
def splitWithSep (text sep : Text) : List Text :=
  (if sep = [] then text.map (fun c => [c])
   else
     match splitOnList sep text with
     | [] => []
     | p :: ps => p :: ps.map (fun q => sep ++ q)).filter (fun s => s ≠ [])

/-- Sum of the lengths of the pieces: the running `total` of
`TextSplitter._merge_splits` (the merge separator is `""` because
`keep_separator=True`, so the separator length contributes nothing). -/
def sumLen (l : List Text) : Nat := (l.map List.length).sum

/-- Strip leading and trailing whitespace (`str.strip()` on the ASCII
whitespace actually produced by the splitter's inputs). -/
def trimL (s : Text) : Text :=
  ((s.dropWhile Char.isWhitespace).reverse.dropWhile Char.isWhitespace).reverse

/-- `TextSplitter._join_docs(docs, "")`: concatenate the pieces, strip
whitespace (`strip_whitespace=True`), and return `none` for an empty
result so that no empty chunk is ever emitted. -/
def joinDocs (docs : List Text) : Option Text :=
  let t := trimL docs.flatten
  if t = [] then none else some t

/-- The pop loop of `TextSplitter._merge_splits`: after emitting a chunk,
drop pieces from the front of the pending window while the running total
exceeds the overlap, or while it is positive and would overflow the chunk
size together with the incoming piece of length `lenNext`. -/
def popDoc (chunkSize overlap lenNext : Nat) : List Text → Nat → List Text × Nat
  | [], total => ([], total)
  | d :: rest, total =>
    if total > overlap ∨ (total + lenNext > chunkSize ∧ total > 0) then
      popDoc chunkSize overlap lenNext rest (total - d.length)
    else (d :: rest, total)

/-- One iteration of the `for d in splits` loop of
`TextSplitter._merge_splits` (merge separator `""`): accumulator is
(emitted chunks, pending window, running total of the window). -/
def mergeStep (chunkSize overlap : Nat) (acc : List Text × List Text × Nat)
    (d : Text) : List Text × List Text × Nat :=
  let (docs, current, total) := acc
  if total + d.length > chunkSize then
    let docs1 := if current ≠ [] then docs ++ (joinDocs current).toList else docs
    let ct := if current ≠ [] then popDoc chunkSize overlap d.length current total
              else (current, total)
    (docs1, ct.1 ++ [d], ct.2 + d.length)
  else (docs, current ++ [d], total + d.length)

/-- `TextSplitter._merge_splits(splits, "")`: greedily pack pieces into
chunks of at most `chunkSize` units, carrying at most `overlap` units of
trailing pieces over into the next chunk. -/
def mergeSplits (chunkSize overlap : Nat) (splits : List Text) : List Text :=
  let acc := splits.foldl (mergeStep chunkSize overlap) ([], [], 0)
  acc.1 ++ (joinDocs acc.2.1).toList

/-- The separator-selection loop of
`RecursiveCharacterTextSplitter._split_text`: the first separator in the
list that is `""` or occurs in the text is chosen, together with the
remaining separators to recurse with; the last separator is the fallback. -/
def chooseSep (dflt : Text) (text : Text) : List Text → Text × List Text
  | [] => (dflt, [])
  | s :: rest =>
    if s = [] then ([], [])
    else if occursIn text s then (s, rest)
    else chooseSep dflt text rest

/-- One iteration of the `for s in splits` loop of
`RecursiveCharacterTextSplitter._split_text`: short pieces accumulate into
the pending good-piece list; an oversized piece first flushes the pending
pieces through the merger, then is either recursively re-split (when
separators remain) or emitted as-is. -/
def splitStep (chunkSize overlap : Nat) (newSeps : List Text)
    (sub : Text → List Text) (acc : List Text × List Text) (s : Text) :
    List Text × List Text :=
  if s.length < chunkSize then (acc.1, acc.2 ++ [s])
  else
    let finals1 := if acc.2 ≠ [] then acc.1 ++ mergeSplits chunkSize overlap acc.2
                   else acc.1
    if newSeps = [] then (finals1 ++ [s], []) else (finals1 ++ sub s, [])

/-- `RecursiveCharacterTextSplitter._split_text(text, separators)`.  The
fuel bounds the recursion depth; each recursive call uses a strict suffix
of the separator list, so fuel `separators.length + 1` is never exhausted. -/
def splitTextRec (chunkSize overlap : Nat) :
    Nat → List Text → Text → List Text
  | 0, _, _ => []
  | fuel + 1, seps, text =>
    let sn := chooseSep (seps.getLastD []) text seps
    let splits := splitWithSep text sn.1
    let acc := splits.foldl
      (splitStep chunkSize overlap sn.2 (splitTextRec chunkSize overlap fuel sn.2))
      ([], [])
    if acc.2 ≠ [] then acc.1 ++ mergeSplits chunkSize overlap acc.2 else acc.1

/-- The default separator list of `RecursiveCharacterTextSplitter`. -/
def defaultSeparators : List Text := [['\n', '\n'], ['\n'], [' '], []]

/-- `split_text` of the splitter constructed in `RAGService.process_file`
(rag.py:107-110) with the given chunk size and overlap. -/
def splitTextCfg (chunkSize overlap : Nat) (text : Text) : List Text :=
  splitTextRec chunkSize overlap (defaultSeparators.length + 1) defaultSeparators text

/-- The chunker exactly as configured by the source:
`RecursiveCharacterTextSplitter(chunk_size=1000, chunk_overlap=100)`. -/
def splitText (text : Text) : List Text := splitTextCfg 1000 100 text

/-- `split_documents`: each loaded page is split independently and the
chunks are concatenated in order (rag.py:110). -/
def extractChunks (pages : List Text) : List Text :=
  pages.flatMap splitText

/-! ### Filesystem paths and directories for the per-session Chroma index

`RAGService` locates a session's persisted vector store at
`os.path.join(settings.CHROMA_PERSIST_DIRECTORY, session_id)`
(rag.py:118, 139, 208) with `CHROMA_PERSIST_DIRECTORY = "chroma_db"`
(config.py:26).  The session id is used verbatim, so path separators and
dot segments inside a session id are meaningful:

* `os.path.exists` (rag.py:140) performs a real filesystem walk — every
  intermediate directory on the path must exist, `.`/`..`/empty segments
  being resolved against the directories actually present;
* Chroma's persistence layer runs `os.makedirs(path, exist_ok=True)`
  when the collection is opened for writing, creating **every** missing
  intermediate directory along the path (so ingesting session `"b/x"`
  also creates `chroma_db/b`).

We therefore model the disk as a set of *physical* directories (paths in
segments, free of `.`/`..`/empty entries) plus the Chroma collection
stored at a physical directory. -/

/-- Pointwise update of a function-backed store. -/
def upd {κ β : Type} [DecidableEq κ] (f : κ → β) (k : κ) (v : β) : κ → β :=
  fun k2 => if k2 = k then v else f k2

/-- Split a path string into its `/`-separated raw segments. -/
def splitSlash : List Char → List (List Char)
  | [] => [[]]
  | c :: rest =>
    if c = '/' then [] :: splitSlash rest
    else
      match splitSlash rest with
      | [] => [[c]]
      | p :: ps => (c :: p) :: ps

/-- Lexically resolve raw segments to the physical path they denote:
empty and `.` segments vanish, `..` removes the preceding segment.  This
is where a *successful* walk (or a `makedirs`-backed write) lands. -/
def normSegs (segs : List (List Char)) : List (List Char)  :=
  segs.foldl
    (fun acc seg =>
      if seg = [] ∨ seg = ['.'] then acc
      else if seg = ['.', '.'] then acc.dropLast
      else acc ++ [seg]) []

/-- `os.path.join(a, b)` for the two-argument form used throughout
rag.py: an absolute `b` replaces `a`, otherwise the parts are joined with
a single `/`. -/
def osPathJoinL (a b : List Char) : List Char :=
  if b.head? = some '/' then b
  else if a = [] ∨ a.getLast? = some '/' then a ++ b
  else a ++ '/' :: b

/-- `settings.CHROMA_PERSIST_DIRECTORY` (config.py:26). -/
def chromaPersistDirectory : List Char := "chroma_db".toList

/-- The raw segments of the path string
`os.path.join("chroma_db", session_id)`. -/
def rawSegs (sid : String) : List (List Char) :=
  splitSlash (osPathJoinL chromaPersistDirectory sid.toList)

/-- The physical directory in which `session_id`'s Chroma collection is
persisted once the write path's `makedirs` has run: the lexical
resolution of the joined path. -/
def sessionDir (sid : String) : List (List Char) :=
  normSegs (rawSegs sid)

/-- The filesystem walk performed by `os.path.exists`: from the current
physical directory `cur` (the working directory when `cur = []`, which
always exists), each raw segment is resolved only if the directory it is
looked up in exists; the path exists when the walk completes at an
existing directory.  In particular `chroma_db/a/../b` exists only if
`chroma_db`, `chroma_db/a` *and* `chroma_db/b` all exist. -/
def walkExists (dirs : List (List Char) → Bool) :
    List (List Char) → List (List Char) → Bool
  | cur, [] => dirs cur
  | cur, seg :: rest =>
    if seg = [] ∨ seg = ['.'] then walkExists dirs cur rest
    else if seg = ['.', '.'] then
      (decide (cur = []) || dirs cur) && walkExists dirs cur.dropLast rest
    else (decide (cur = []) || dirs cur) && walkExists dirs (cur ++ [seg]) rest

/-- `os.makedirs(path, exist_ok=True)` as run by Chroma's persistence
layer: walking the raw segments from the working directory, every
physical directory passed through a normal segment is created (`..`
steps back without creating anything further, but the directories named
*before* a `..` have already been created — `makedirs("chroma_db/a/../b")`
creates `chroma_db`, `chroma_db/a` and `chroma_db/b`). -/
def mkdirsAdd : (List (List Char) → Bool) → List (List Char) →
    List (List Char) → (List (List Char) → Bool)
  | dirs, _, [] => dirs
  | dirs, cur, seg :: rest =>
    if seg = [] ∨ seg = ['.'] then mkdirsAdd dirs cur rest
    else if seg = ['.', '.'] then mkdirsAdd dirs cur.dropLast rest
    else mkdirsAdd (upd dirs (cur ++ [seg]) true) (cur ++ [seg]) rest

/-- Whether physical path `p` equals `d` or lies inside it (used for
`shutil.rmtree`, which removes the whole subtree). -/
def underDir : List (List Char) → List (List Char) → Bool
  | [], _ => true
  | _ :: _, [] => false
  | d :: ds, p :: ps => d = p && underDir ds ps

/-- A session key that is one plain path segment: nonempty, free of
`/`, and not a dot segment.  For such keys the joined path is simply
`chroma_db/<key>` with no aliasing or intermediate-directory effects. -/
def plainKey (sid : String) : Prop :=
  sid.toList ≠ [] ∧ '/' ∉ sid.toList ∧
  sid.toList ≠ ['.'] ∧ sid.toList ≠ ['.', '.']

/-- Plainness of a key is decidable (evaluated in the witnesses). -/
instance (sid : String) : Decidable (plainKey sid) :=
  inferInstanceAs (Decidable (sid.toList ≠ [] ∧ '/' ∉ sid.toList ∧
    sid.toList ≠ ['.'] ∧ sid.toList ≠ ['.', '.']))

/-- Physical well-formedness of a directory set: a directory exists only
if its parent does.  Every state reachable from an empty disk by
`makedirs`/`rmtree` satisfies this. -/
def DirsClosed (dirs : List (List Char) → Bool) : Prop :=
  ∀ p s, dirs (p ++ [s]) = true → dirs p = true

/-! ### System state -/

/-- The cross-request durable state of the system:
* `dirs`: the physical directories present on disk;
* `collections`: the Chroma collection persisted at a physical
  directory; `some chunks` is the list of embedded chunk texts stored
  there (embeddings are attached 1:1 and deterministic, so the chunk
  texts determine them), `none` means no collection has been written;
* `memory`: the Redis conversation history per raw session id
  (`RedisChatMessageHistory` keys are `"message_store:" + session_id`,
  injective in the session id);
* `memoryTTL`: the expiry currently attached to the session's Redis
  history key;
* `files`: which upload file paths currently exist on disk. -/
structure SysState where
  dirs : List (List Char) → Bool
  collections : List (List Char) → Option (List Text)
  memory : String → List Turn
  memoryTTL : String → Option Nat
  files : String → Bool

/-- `os.path.exists(persist_directory)` as checked by
`RAGService.get_answer` (rag.py:139-140). -/
def persistExists (st : SysState) (sid : String) : Bool :=
  walkExists st.dirs [] (rawSegs sid)

/-! ### The language model configuration -/

/-- Settings of a language-model call. -/
structure LLMConfig where
  temperature : ℚ
  maxCompletionTokens : Option Nat
  deriving DecidableEq

/-- The singleton `ChatOpenAI` client built by `RAGService.llm`
(rag.py:83-88): `temperature=1`, `max_completion_tokens=256`.  (The model
name comes from `settings.OPENAI_MODEL_NAME` and is irrelevant to the
claims.) -/
def llmConfig : LLMConfig := { temperature := 1, maxCompletionTokens := some 256 }

/-! ### RAGService.process_file and the Celery task -/

/-- `RAGService.process_file(session_id, filepath)` (rag.py:91-125),
returning the state after the call together with its outcome.
`loaded` stands for the outcome of `PyPDFLoader(filepath).load()` — the
list of page texts, or the exception the loader raised; `build` stands
for the outcome of embedding and persisting the chunks (`.error` = an
embedding or storage exception).  The pages are split by the configured
chunker; if no chunks result, `ValueError("No text found in document.")`
is raised before any store is touched.  Otherwise
`Chroma.from_documents(texts, embeddings, persist_directory=dir)` first
opens the persistent client — running `os.makedirs` on the path, which
creates every missing intermediate directory — and then adds the chunks
(with freshly generated ids) to the collection persisted at the resolved
directory, so an embedding/storage failure still leaves the directories
created.  Nothing in `process_file` removes or replaces an existing
collection for the session. -/
def processFile (st : SysState) (sid : String)
    (loaded : Except String (List Text)) (build : Except String Unit) :
    SysState × Except String Unit :=
  match loaded with
  | .error e => (st, .error e)
  | .ok pages =>
    let texts := extractChunks pages
    if texts = [] then (st, .error "No text found in document.")
    else
      let st1 := { st with dirs := mkdirsAdd st.dirs [] (rawSegs sid) }
      match build with
      | .error e => (st1, .error e)
      | .ok _ =>
        let dir := sessionDir sid
        let cols := upd st1.collections dir
          (some ((st1.collections dir).getD [] ++ texts))
        ({ st1 with collections := cols }, .ok ())

/-- The system state after a `process_file` call, whatever its outcome. -/
def ingestState (st : SysState) (sid : String)
    (loaded : Except String (List Text)) (build : Except String Unit) : SysState :=
  (processFile st sid loaded build).1

/-- Terminal status of a Celery ingestion job: the task return value, or
the exception re-raised to the result backend. -/
inductive TaskStatus where
  | success (sessionId : String)
  | failure (error : String)
  deriving DecidableEq

/-- Result of one execution of `process_file_task`. -/
structure TaskResult where
  status : TaskStatus
  state : SysState

/-- The `autoretry_for` exception classes of `process_file_task`: the
decorator `@celery_app.task(bind=True)` (tasks.py:13) passes none, and
the task body never calls `self.retry`, so a failed job is not retried
automatically. -/
def processFileTaskAutoretryFor : List String := []

/-- `process_file_task(self, session_id, filepath)` (tasks.py:13-30):
run `rag_service.process_file`; delete the uploaded file afterwards on
the success path, and likewise in the `except` handler before re-raising,
so the file is removed in every terminal state. -/
def processFileTask (st : SysState) (sid filepath : String)
    (loaded : Except String (List Text)) (build : Except String Unit) :
    TaskResult :=
  match processFile st sid loaded build with
  | (st2, .ok _) => ⟨.success sid, { st2 with files := upd st2.files filepath false }⟩
  | (st2, .error e) => ⟨.failure e, { st2 with files := upd st2.files filepath false }⟩

/-! ### RAGService.get_answer (rag.py:127-201)

The request path: check `os.path.exists` on the session's persist
directory; if the walk fails, return the canned guidance string with no
model call and no Redis access.  Otherwise load the collection persisted
at the resolved directory (an empty collection when only the directory
exists), build a `ConversationalRetrievalChain` over the singleton
`RAGService.llm`, and invoke it.  The chain invocation is abstracted by
a function `gen : history → stored chunks → question → Except error
answer`: the chain condenses the question against the loaded history,
retrieves from the session's collection, and generates — all
deterministic functions of those three inputs under the spec's
collaborator contracts, and it may fail with a provider error.

Constructing `RedisChatMessageHistory(ttl=3600, ...)` performs no Redis
call; the ttl is applied by `add_message` (`expire` after the push),
which runs only through `ConversationBufferMemory.save_context` after a
*successful* invoke.  So on success exactly one (question, answer) turn
is appended and the session's expiry is set to 3600; an exception
propagates out of `invoke` before any `save_context` runs, leaving the
history and its expiry untouched. -/

/-- The canned reply for a session with no uploaded document
(rag.py:142). -/
def guidanceMessage : String := "Please upload a PDF file first."

/-- What `ConversationBufferMemory` (rag.py:154-159) loads into the
chain's `chat_history` variable: the entire per-session history.  The
memory is constructed with no message-count window and no token limit
(the buffer variant, not `ConversationBufferWindowMemory` or a
token-buffer memory), so every stored turn is included. -/
def chatHistoryVariable (mem : List Turn) : List Turn := mem

/-- Result of one `get_answer` call: the returned answer (or the
propagated exception), the state afterwards, the configurations of the
language-model calls made, and the prior turns handed to the model. -/
structure AnswerResult where
  answer : Except String String
  state : SysState
  llmCalls : List LLMConfig
  promptHistory : List Turn

/-- `RAGService.get_answer(session_id, query)`. -/
def getAnswer (gen : List Turn → List Text → String → Except String String)
    (st : SysState) (sid : String) (query : String) : AnswerResult :=
  if persistExists st sid then
    let chunks := (st.collections (sessionDir sid)).getD []
    let hist := chatHistoryVariable (st.memory sid)
    match gen hist chunks query with
    | .error e => ⟨.error e, st, [llmConfig], hist⟩
    | .ok ans =>
      let mem1 := upd st.memory sid (st.memory sid ++ [(query, ans)])
      let ttl1 := upd st.memoryTTL sid (some 3600)
      ⟨.ok ans, { st with memory := mem1, memoryTTL := ttl1 }, [llmConfig], hist⟩
  else ⟨.ok guidanceMessage, st, [], []⟩

/-- `RAGService.clear_session(session_id)` (rag.py:203-218): if the
session's persist directory exists, `shutil.rmtree` removes it and its
whole subtree (directories and the collection stored there); the
session's Redis history key is deleted, which also drops any expiry. -/
def clearSession (st : SysState) (sid : String) : SysState :=
  let dir := sessionDir sid
  let dirs2 := if persistExists st sid then
      fun p => if underDir dir p then false else st.dirs p
    else st.dirs
  let cols2 := if persistExists st sid then
      fun p => if underDir dir p then none else st.collections p
    else st.collections
  { dirs := dirs2
    collections := cols2
    memory := upd st.memory sid []
    memoryTTL := upd st.memoryTTL sid none
    files := st.files }

/-! ### Concrete states and collaborators used by the witnesses -/

/-- The initial state: no directories, no collections, no history, no
expiry, and no upload files. -/
def stEmpty : SysState :=
  { dirs := fun _ => false
    collections := fun _ => none
    memory := fun _ => []
    memoryTTL := fun _ => none
    files := fun _ => true }

/-- A model stub that always answers. -/
def genOk : List Turn → List Text → String → Except String String :=
  fun _ _ _ => .ok "stub answer"

/-- A model stub that always fails with a provider error. -/
def genFail : List Turn → List Text → String → Except String String :=
  fun _ _ _ => .error "rate limited"

/-- A one-page document whose text is `"doc"`. -/
def pagesDoc : List Text := [['d', 'o', 'c']]

/-- State of session `"s"` after one ingestion of `pagesDoc`. -/
def stIng1 : SysState := ingestState stEmpty "s" (.ok pagesDoc) (.ok ())

/-- State of session `"s"` after ingesting `pagesDoc` twice. -/
def stIng2 : SysState := ingestState stIng1 "s" (.ok pagesDoc) (.ok ())

/-- State after ingesting a document under the nested session key
`"b/x"`, starting from the empty disk. -/
def stNested : SysState := ingestState stEmpty "b/x" (.ok pagesDoc) (.ok ())

/-- A state whose session `"s"` has an existing directory with a
one-chunk collection and `n` recorded turns. -/
def stWithMemory (n : Nat) : SysState :=
  { dirs := fun p =>
      decide (p = [chromaPersistDirectory]) || decide (p = sessionDir "s")
    collections := upd (fun _ => none) (sessionDir "s") (some [['d']])
    memory := fun _ => List.replicate n ("q", "a")
    memoryTTL := fun _ => none
    files := fun _ => false }

/-- A state that differs from `stEmpty` only in session `"s2"`'s history
(used to vary a bystander session's state). -/
def stMem2 : SysState :=
  { stEmpty with memory := upd stEmpty.memory "s2" [("x", "y")] }

/-! ### The chunk-overlap observables (claim C5) -/

/-- The last `n` units of a text. -/
def lastN (n : Nat) (l : Text) : Text := l.drop (l.length - n)

/-- The first `n` units of a text. -/
def firstN (n : Nat) (l : Text) : Text := l.take n

/-- The adjacent chunk pairs of a chunk sequence. -/
def adjacentPairs (l : List Text) : List (Text × Text) := l.zip l.tail

/-- Every pair of adjacent chunks shares exactly `ov` units of text at
the boundary: the last `ov` units of a chunk equal the first `ov` units
of its successor. -/
def ExactOverlap (ov : Nat) (l : List Text) : Prop :=
  ∀ p ∈ adjacentPairs l, lastN ov p.1 = firstN ov p.2

/-- A probe document of 1051 units: 950 `a`s, one space, 100 `b`s. -/
def probeText : Text :=
  List.replicate 950 'a' ++ ' ' :: List.replicate 100 'b'

/-! ### Basic lemmas about the stores and the answer path -/

set_option maxRecDepth 4000

theorem upd_eq {κ β : Type} [DecidableEq κ] (f : κ → β) (k : κ) (v : β) :
    upd f k v k = v := by
  simp [upd]

theorem upd_ne {κ β : Type} [DecidableEq κ] (f : κ → β) (k k2 : κ) (v : β)
    (h : k2 ≠ k) : upd f k v k2 = f k2 := by
  simp [upd, h]

theorem underDir_refl (d : List (List Char)) : underDir d d = true := by
  induction d with
  | nil => rfl
  | cons s ds ih => simp [underDir, ih]

theorem getAnswer_not_exists
    (gen : List Turn → List Text → String → Except String String)
    (st : SysState) (sid q : String)
    (h : persistExists st sid = false) :
    getAnswer gen st sid q = ⟨.ok guidanceMessage, st, [], []⟩ := by
  unfold getAnswer
  simp [h]

theorem getAnswer_exists_ok
    (gen : List Turn → List Text → String → Except String String)
    (st : SysState) (sid q : String) (a : String)
    (hex : persistExists st sid = true)
    (hg : gen (st.memory sid) ((st.collections (sessionDir sid)).getD []) q = .ok a) :
    getAnswer gen st sid q =
      ⟨.ok a,
       { st with memory := upd st.memory sid (st.memory sid ++ [(q, a)])
                 memoryTTL := upd st.memoryTTL sid (some 3600) },
       [llmConfig], st.memory sid⟩ := by
  unfold getAnswer
  rw [if_pos hex]
  simp only [chatHistoryVariable]
  rw [hg]

theorem getAnswer_exists_err
    (gen : List Turn → List Text → String → Except String String)
    (st : SysState) (sid q : String) (e : String)
    (hex : persistExists st sid = true)
    (hg : gen (st.memory sid) ((st.collections (sessionDir sid)).getD []) q = .error e) :
    getAnswer gen st sid q = ⟨.error e, st, [llmConfig], st.memory sid⟩ := by
  unfold getAnswer
  rw [if_pos hex]
  simp only [chatHistoryVariable]
  rw [hg]

/-- The history handed to the model by an answered call is the session's
memory in full. -/
theorem getAnswer_promptHistory
    (gen : List Turn → List Text → String → Except String String)
    (st : SysState) (sid q : String)
    (hex : persistExists st sid = true) :
    (getAnswer gen st sid q).promptHistory = st.memory sid := by
  cases hg : gen (st.memory sid) ((st.collections (sessionDir sid)).getD []) q with
  | ok a => rw [getAnswer_exists_ok gen st sid q a hex hg]
  | error e => rw [getAnswer_exists_err gen st sid q e hex hg]

/-- C1 counterexample: ingesting a document under the nested session key
`"b/x"` makes `os.makedirs` create the intermediate directory
`chroma_db/b`, so a later answer call for the distinct key `"b"` — which
has had no ingestion at all — passes the existence check, invokes the
language model over an empty collection, and records a memory turn,
refuting the claim for key `"b"`. -/
theorem nested_key_ingest_counterexample :
    ("b/x" : String) ≠ "b" ∧
    persistExists stEmpty "b" = false ∧
    stNested.collections (sessionDir "b") = none ∧
    persistExists stNested "b" = true ∧
    (getAnswer genOk stNested "b" "q").llmCalls = [llmConfig] ∧
    (getAnswer genOk stNested "b" "q").answer ≠ .ok guidanceMessage ∧
    (getAnswer genOk stNested "b" "q").state.memory "b" = [("q", "stub answer")] :=
  ⟨by decide, by decide, by decide, by decide, by decide, by decide, by decide⟩

/-- C1 (amended): for every session key whose persist directory does not
exist on disk (`os.path.exists` false — the actual branch condition,
which "no prior ingestion for this key" guarantees only when no other
key's ingestion has created the directory) and every question, the
answer operation returns the canned guidance message, makes no
language-model call, and leaves the state — in particular Conversation
Memory — unchanged. -/
theorem no_index_answer_guidance
    (gen : List Turn → List Text → String → Except String String)
    (st : SysState) (sid q : String)
    (h : persistExists st sid = false) :
    (getAnswer gen st sid q).answer = .ok guidanceMessage ∧
    (getAnswer gen st sid q).llmCalls = [] ∧
    (getAnswer gen st sid q).state = st := by
  rw [getAnswer_not_exists gen st sid q h]
  exact ⟨rfl, rfl, rfl⟩

/-- Witness for the amended C1 at a concrete empty session. -/
theorem no_index_answer_guidance_witness :
    persistExists stEmpty "s" = false ∧
    ((getAnswer genOk stEmpty "s" "anything").answer = .ok guidanceMessage ∧
     (getAnswer genOk stEmpty "s" "anything").llmCalls = [] ∧
     (getAnswer genOk stEmpty "s" "anything").state = stEmpty) :=
  ⟨rfl, no_index_answer_guidance genOk stEmpty "s" "anything" rfl⟩

/-- C2: for a session whose persist directory exists, exactly one
(question, answer) turn is appended to Conversation Memory when and only
when the chain's generation succeeds; a failed generation propagates the
error and leaves the memory untouched. -/
theorem memory_append_iff_generation_success
    (gen : List Turn → List Text → String → Except String String)
    (st : SysState) (sid q : String) (a e : String)
    (hex : persistExists st sid = true) :
    (gen (st.memory sid) ((st.collections (sessionDir sid)).getD []) q = .ok a →
      (getAnswer gen st sid q).state.memory sid = st.memory sid ++ [(q, a)] ∧
      (getAnswer gen st sid q).answer = .ok a) ∧
    (gen (st.memory sid) ((st.collections (sessionDir sid)).getD []) q = .error e →
      (getAnswer gen st sid q).state.memory sid = st.memory sid ∧
      (getAnswer gen st sid q).answer = .error e) := by
  constructor
  · intro hg
    rw [getAnswer_exists_ok gen st sid q a hex hg]
    exact ⟨upd_eq _ _ _, rfl⟩
  · intro hg
    rw [getAnswer_exists_err gen st sid q e hex hg]
    exact ⟨rfl, rfl⟩

/-- Witness for C2 at a concrete ingested session. -/
theorem memory_append_iff_generation_success_witness :
    persistExists stIng1 "s" = true ∧
    ((genOk (stIng1.memory "s") ((stIng1.collections (sessionDir "s")).getD []) "q" =
        .ok "stub answer" →
      (getAnswer genOk stIng1 "s" "q").state.memory "s" =
        stIng1.memory "s" ++ [("q", "stub answer")] ∧
      (getAnswer genOk stIng1 "s" "q").answer = .ok "stub answer") ∧
    (genOk (stIng1.memory "s") ((stIng1.collections (sessionDir "s")).getD []) "q" =
        .error "rate limited" →
      (getAnswer genOk stIng1 "s" "q").state.memory "s" = stIng1.memory "s" ∧
      (getAnswer genOk stIng1 "s" "q").answer = .error "rate limited")) :=
  ⟨by decide,
   memory_append_iff_generation_success genOk stIng1 "s" "q"
     "stub answer" "rate limited" (by decide)⟩

/-- C3: after an ingestion job reaches its terminal state — success, or
failure from any exception during load, split or index build — the
uploaded source file no longer exists at its original path. -/
theorem ingestion_cleanup_deletes_file (st : SysState) (sid filepath : String)
    (loaded : Except String (List Text)) (build : Except String Unit) :
    (processFileTask st sid filepath loaded build).state.files filepath = false := by
  unfold processFileTask
  cases hp : processFile st sid loaded build with
  | mk st2 out =>
    cases out with
    | ok u => exact upd_eq _ _ _
    | error e => exact upd_eq _ _ _

/-- C4: when the chunker yields zero chunks, ingestion fails with the
`ValueError("No text found in document.")` carried as the job's error
detail before any directory or collection is touched, the file is
cleaned up, and the task is configured with no automatic retry. -/
theorem empty_document_ingestion_fails (st : SysState) (sid filepath : String)
    (pages : List Text) (build : Except String Unit)
    (h : extractChunks pages = []) :
    (processFileTask st sid filepath (.ok pages) build).status =
      .failure "No text found in document." ∧
    (processFileTask st sid filepath (.ok pages) build).state.collections =
      st.collections ∧
    (processFileTask st sid filepath (.ok pages) build).state.dirs = st.dirs ∧
    (processFileTask st sid filepath (.ok pages) build).state.files filepath = false ∧
    processFileTaskAutoretryFor = [] := by
  have hp : processFile st sid (.ok pages) build =
      (st, .error "No text found in document.") := by
    unfold processFile
    simp [h]
  unfold processFileTask
  rw [hp]
  exact ⟨rfl, rfl, rfl, upd_eq _ _ _, rfl⟩

/-- Witness for C4 on a document with no extractable text. -/
theorem empty_document_ingestion_fails_witness :
    extractChunks [] = [] ∧
    ((processFileTask stEmpty "s" "uploads/f.pdf" (.ok []) (.ok ())).status =
      .failure "No text found in document." ∧
    (processFileTask stEmpty "s" "uploads/f.pdf" (.ok []) (.ok ())).state.collections =
      stEmpty.collections ∧
    (processFileTask stEmpty "s" "uploads/f.pdf" (.ok []) (.ok ())).state.dirs =
      stEmpty.dirs ∧
    (processFileTask stEmpty "s" "uploads/f.pdf" (.ok []) (.ok ())).state.files
      "uploads/f.pdf" = false ∧
    processFileTaskAutoretryFor = []) :=
  ⟨rfl, empty_document_ingestion_fails stEmpty "s" "uploads/f.pdf" [] (.ok ()) rfl⟩

/-! ### Claims about re-ingestion and session isolation -/

/-- C6 counterexample: ingesting the document `"doc"` twice for session
`"s"` leaves the session's collection holding the chunk twice — not the
collection a single ingestion produces (nor a permutation of it), so
retrieval candidates are silently duplicated. -/
theorem reingest_duplicates_counterexample :
    stIng1.collections (sessionDir "s") = some [['d', 'o', 'c']] ∧
    stIng2.collections (sessionDir "s") = some [['d', 'o', 'c'], ['d', 'o', 'c']] ∧
    stIng2.collections (sessionDir "s") ≠ stIng1.collections (sessionDir "s") ∧
    ((stIng2.collections (sessionDir "s")).getD []).count ['d', 'o', 'c'] = 2 ∧
    ((stIng1.collections (sessionDir "s")).getD []).count ['d', 'o', 'c'] = 1 :=
  ⟨by decide, by decide, by decide, by decide, by decide⟩

/-- C6 (amended): the index build is not idempotent per (sessionKey,
document): `Chroma.from_documents` adds the chunks to the session's
existing persisted collection, so ingesting the same document twice
leaves the collection holding the prior contents plus two copies of the
document's chunks — re-ingestion silently duplicates retrieval
candidates rather than deduplicating or replacing. -/
theorem reingest_appends_amended (st : SysState) (sid : String)
    (pages : List Text) (st1 st2 : SysState)
    (hne : extractChunks pages ≠ [])
    (h1 : processFile st sid (.ok pages) (.ok ()) = (st1, .ok ()))
    (h2 : processFile st1 sid (.ok pages) (.ok ()) = (st2, .ok ())) :
    st2.collections (sessionDir sid) =
      some ((st.collections (sessionDir sid)).getD [] ++
        extractChunks pages ++ extractChunks pages) ∧
    st2.collections (sessionDir sid) ≠ st1.collections (sessionDir sid) := by
  unfold processFile at h1 h2
  simp only [if_neg hne, Prod.mk.injEq] at h1 h2
  obtain ⟨h1s, -⟩ := h1
  obtain ⟨h2s, -⟩ := h2
  subst h1s
  subst h2s
  constructor
  · simp only [upd_eq, Option.getD_some]
  · simp only [upd_eq, Option.getD_some, ne_eq, Option.some.injEq]
    intro h
    have hl := congrArg List.length h
    simp at hl
    exact hne hl

/-- Witness for the amended C6 at a concrete double ingestion. -/
theorem reingest_appends_amended_witness :
    extractChunks pagesDoc ≠ [] ∧
    (processFile stEmpty "s" (.ok pagesDoc) (.ok ()) = (stIng1, .ok ())) ∧
    (processFile stIng1 "s" (.ok pagesDoc) (.ok ()) = (stIng2, .ok ())) ∧
    (stIng2.collections (sessionDir "s") =
      some ((stEmpty.collections (sessionDir "s")).getD [] ++
        extractChunks pagesDoc ++ extractChunks pagesDoc) ∧
    stIng2.collections (sessionDir "s") ≠ stIng1.collections (sessionDir "s")) :=
  ⟨by decide, rfl, rfl,
   reingest_appends_amended stEmpty "s" pagesDoc stIng1 stIng2 (by decide) rfl rfl⟩

/-- Ingestion under one session key leaves the collection at every other
physical directory, and every session's history and expiry, unchanged. -/
theorem ingestState_frame (st : SysState) (sid : String)
    (loaded : Except String (List Text)) (build : Except String Unit)
    (k : List (List Char)) (hk : k ≠ sessionDir sid) :
    (ingestState st sid loaded build).collections k = st.collections k ∧
    (ingestState st sid loaded build).memory = st.memory ∧
    (ingestState st sid loaded build).memoryTTL = st.memoryTTL := by
  unfold ingestState processFile
  cases loaded with
  | error e => exact ⟨rfl, rfl, rfl⟩
  | ok pages =>
    by_cases h : extractChunks pages = []
    · simp [h]
    · cases build with
      | error e => simp [h]
      | ok u => simp [h, upd_ne _ _ _ _ hk]

/-! ### Plain session keys -/

theorem chroma_seg_ne_dots :
    ¬(chromaPersistDirectory = [] ∨ chromaPersistDirectory = ['.']) := by
  decide

theorem chroma_seg_ne_dotdot : chromaPersistDirectory ≠ ['.', '.'] := by
  decide

theorem osPathJoin_plain (s : List Char) (h1 : s ≠ []) (h2 : '/' ∉ s) :
    osPathJoinL chromaPersistDirectory s = chromaPersistDirectory ++ '/' :: s := by
  have hh : ¬(s.head? = some '/') := by
    cases s with
    | nil => exact absurd rfl h1
    | cons c r =>
      simp only [List.head?, Option.some.injEq]
      intro hc
      subst hc
      exact h2 (List.mem_cons_self _ _)
  unfold osPathJoinL
  rw [if_neg hh, if_neg (by decide)]

theorem splitSlash_no_slash (s : List Char) (h : '/' ∉ s) : splitSlash s = [s] := by
  induction s with
  | nil => rfl
  | cons c rest ih =>
    rw [splitSlash,
      if_neg (by intro hc; subst hc; exact h (List.mem_cons_self _ _))]
    rw [ih (fun hm => h (List.mem_cons_of_mem c hm))]

theorem splitSlash_sep (p s : List Char) (hp : '/' ∉ p) :
    splitSlash (p ++ '/' :: s) = p :: splitSlash s := by
  induction p with
  | nil =>
    rw [List.nil_append, splitSlash, if_pos rfl]
  | cons c pr ih =>
    rw [List.cons_append, splitSlash,
      if_neg (by intro hc; subst hc; exact hp (List.mem_cons_self _ _))]
    rw [ih (fun hm => hp (List.mem_cons_of_mem c hm))]

theorem rawSegs_plain (sid : String) (h : plainKey sid) :
    rawSegs sid = [chromaPersistDirectory, sid.toList] := by
  obtain ⟨h1, h2, h3, h4⟩ := h
  unfold rawSegs
  rw [osPathJoin_plain sid.toList h1 h2,
    splitSlash_sep chromaPersistDirectory sid.toList (by decide),
    splitSlash_no_slash sid.toList h2]

theorem normSegs_chroma (s : List Char) (h1 : s ≠ []) (h3 : s ≠ ['.'])
    (h4 : s ≠ ['.', '.']) :
    normSegs [chromaPersistDirectory, s] = [chromaPersistDirectory, s] := by
  simp [normSegs, h1, h3, h4, chroma_seg_ne_dots, chroma_seg_ne_dotdot]

theorem sessionDir_plain (sid : String) (h : plainKey sid) :
    sessionDir sid = [chromaPersistDirectory, sid.toList] := by
  unfold sessionDir
  rw [rawSegs_plain sid h]
  exact normSegs_chroma sid.toList h.1 h.2.2.1 h.2.2.2

theorem walkExists_chroma (dirs : List (List Char) → Bool) (s : List Char)
    (h1 : s ≠ []) (h3 : s ≠ ['.']) (h4 : s ≠ ['.', '.']) :
    walkExists dirs [] [chromaPersistDirectory, s] =
      (dirs [chromaPersistDirectory] && dirs [chromaPersistDirectory, s]) := by
  simp [walkExists, h1, h3, h4, chroma_seg_ne_dots, chroma_seg_ne_dotdot]

theorem persistExists_plain (st : SysState) (sid : String) (h : plainKey sid) :
    persistExists st sid =
      (st.dirs [chromaPersistDirectory] &&
       st.dirs [chromaPersistDirectory, sid.toList]) := by
  unfold persistExists
  rw [rawSegs_plain sid h]
  exact walkExists_chroma st.dirs sid.toList h.1 h.2.2.1 h.2.2.2

theorem mkdirsAdd_chroma (dirs : List (List Char) → Bool) (s : List Char)
    (h1 : s ≠ []) (h3 : s ≠ ['.']) (h4 : s ≠ ['.', '.']) :
    mkdirsAdd dirs [] [chromaPersistDirectory, s] =
      upd (upd dirs [chromaPersistDirectory] true)
        [chromaPersistDirectory, s] true := by
  simp [mkdirsAdd, h1, h3, h4, chroma_seg_ne_dots, chroma_seg_ne_dotdot]

theorem mkdirsAdd_plain (dirs : List (List Char) → Bool) (sid : String)
    (h : plainKey sid) :
    mkdirsAdd dirs [] (rawSegs sid) =
      upd (upd dirs [chromaPersistDirectory] true)
        [chromaPersistDirectory, sid.toList] true := by
  rw [rawSegs_plain sid h]
  exact mkdirsAdd_chroma dirs sid.toList h.1 h.2.2.1 h.2.2.2

theorem toList_ne_of_ne (A B : String) (h : A ≠ B) : A.toList ≠ B.toList := by
  intro hl
  apply h
  cases A with
  | mk da =>
    cases B with
    | mk db => exact congrArg String.mk hl

/-- Ingesting under one plain session key does not change whether any
other plain key's persist directory exists (on a physically well-formed
disk). -/
theorem persistExists_ingest_plain (st : SysState) (A B : String)
    (loaded : Except String (List Text)) (build : Except String Unit)
    (hA : plainKey A) (hB : plainKey B) (hAB : A ≠ B)
    (hcl : DirsClosed st.dirs) :
    persistExists (ingestState st A loaded build) B = persistExists st B := by
  have hABl : A.toList ≠ B.toList := toList_ne_of_ne A B hAB
  have hdirs : (ingestState st A loaded build).dirs = st.dirs ∨
      (ingestState st A loaded build).dirs =
        upd (upd st.dirs [chromaPersistDirectory] true)
          [chromaPersistDirectory, A.toList] true := by
    unfold ingestState processFile
    cases loaded with
    | error e => exact Or.inl rfl
    | ok pages =>
      by_cases h : extractChunks pages = []
      · simp [h]
      · cases build with
        | error e => simp [h, mkdirsAdd_plain st.dirs A hA]
        | ok u => simp [h, mkdirsAdd_plain st.dirs A hA]
  rw [persistExists_plain _ B hB, persistExists_plain st B hB]
  rcases hdirs with h | h
  · rw [h]
  · rw [h]
    rw [upd_ne _ _ _ _ (by simp), upd_eq]
    rw [upd_ne _ _ _ _ (by
        intro hco
        injection hco with hc1 hc2
        injection hc2 with hc3 hc4
        exact hABl hc3.symm),
      upd_ne _ _ _ _ (by simp)]
    cases hb : st.dirs [chromaPersistDirectory, B.toList]
    · simp
    · have hroot : st.dirs [chromaPersistDirectory] = true :=
        hcl [chromaPersistDirectory] B.toList hb
      simp [hroot]

/-- C7 counterexample: the session keys `"a/../b"` and `"b"` are
distinct, yet ingesting a document under `"a/../b"` writes the very
collection that key `"b"` reads and makes `"b"`'s directory exist —
while conversely `"a/../b"`'s own existence check depends on
`chroma_db/a`, so it fails after only `"b"` has been ingested.  Session
ids are joined into the persist path unsanitized, so isolation as
claimed for *every* pair of distinct keys fails. -/
theorem session_alias_counterexample :
    ("a/../b" : String) ≠ "b" ∧
    stEmpty.collections (sessionDir "b") = none ∧
    persistExists stEmpty "b" = false ∧
    (ingestState stEmpty "a/../b" (.ok pagesDoc) (.ok ())).collections (sessionDir "b") =
      some [['d', 'o', 'c']] ∧
    persistExists (ingestState stEmpty "a/../b" (.ok pagesDoc) (.ok ())) "b" = true ∧
    persistExists (ingestState stEmpty "b" (.ok pagesDoc) (.ok ())) "a/../b" = false :=
  ⟨by decide, rfl, by decide, by decide, by decide, by decide⟩

/-- C7 (amended): isolation holds between *plain* session keys — keys
that are a single path segment, free of `/` and not a dot segment — on a
physically well-formed disk: ingestion under plain key `A` leaves every
other plain key `B`'s collection, history, expiry and directory
existence unchanged; answering under `A` changes no directory or
collection at all and leaves `B`'s history and expiry unchanged; and the
answer for `A` is a function only of whether `A`'s directory exists,
`A`'s collection, `A`'s history and the question. -/
theorem session_isolation_amended (A B : String)
    (gen : List Turn → List Text → String → Except String String)
    (st st' : SysState) (q : String)
    (loaded : Except String (List Text)) (build : Except String Unit)
    (hA : plainKey A) (hB : plainKey B) (hAB : A ≠ B)
    (hcl : DirsClosed st.dirs)
    (hEx : persistExists st' A = persistExists st A)
    (hCol : st'.collections (sessionDir A) = st.collections (sessionDir A))
    (hMem : st'.memory A = st.memory A) :
    (ingestState st A loaded build).collections (sessionDir B) =
      st.collections (sessionDir B) ∧
    (ingestState st A loaded build).memory B = st.memory B ∧
    (ingestState st A loaded build).memoryTTL B = st.memoryTTL B ∧
    persistExists (ingestState st A loaded build) B = persistExists st B ∧
    (getAnswer gen st A q).state.collections = st.collections ∧
    (getAnswer gen st A q).state.dirs = st.dirs ∧
    (getAnswer gen st A q).state.memory B = st.memory B ∧
    (getAnswer gen st A q).state.memoryTTL B = st.memoryTTL B ∧
    (getAnswer gen st' A q).answer = (getAnswer gen st A q).answer := by
  have hABl : A.toList ≠ B.toList := toList_ne_of_ne A B hAB
  have hBA : B ≠ A := Ne.symm hAB
  have hdir : sessionDir B ≠ sessionDir A := by
    rw [sessionDir_plain A hA, sessionDir_plain B hB]
    intro hco
    injection hco with hc1 hc2
    injection hc2 with hc3 hc4
    exact hABl hc3.symm
  obtain ⟨hf1, hf2, hf3⟩ := ingestState_frame st A loaded build (sessionDir B) hdir
  have hGA : (getAnswer gen st A q).state.collections = st.collections ∧
      (getAnswer gen st A q).state.dirs = st.dirs ∧
      (getAnswer gen st A q).state.memory B = st.memory B ∧
      (getAnswer gen st A q).state.memoryTTL B = st.memoryTTL B ∧
      (getAnswer gen st' A q).answer = (getAnswer gen st A q).answer := by
    cases hex : persistExists st A with
    | false =>
      have hex' : persistExists st' A = false := by rw [hEx, hex]
      rw [getAnswer_not_exists gen st A q hex,
        getAnswer_not_exists gen st' A q hex']
      exact ⟨rfl, rfl, rfl, rfl, rfl⟩
    | true =>
      have hex' : persistExists st' A = true := by rw [hEx, hex]
      cases hg : gen (st.memory A) ((st.collections (sessionDir A)).getD []) q with
      | ok a =>
        have hg' : gen (st'.memory A) ((st'.collections (sessionDir A)).getD []) q =
            .ok a := by rw [hMem, hCol]; exact hg
        rw [getAnswer_exists_ok gen st A q a hex hg,
          getAnswer_exists_ok gen st' A q a hex' hg']
        exact ⟨rfl, rfl, upd_ne _ _ _ _ hBA, upd_ne _ _ _ _ hBA, rfl⟩
      | error e =>
        have hg' : gen (st'.memory A) ((st'.collections (sessionDir A)).getD []) q =
            .error e := by rw [hMem, hCol]; exact hg
        rw [getAnswer_exists_err gen st A q e hex hg,
          getAnswer_exists_err gen st' A q e hex' hg']
        exact ⟨rfl, rfl, rfl, rfl, rfl⟩
  exact ⟨hf1, by rw [hf2], by rw [hf3],
    persistExists_ingest_plain st A B loaded build hA hB hAB hcl,
    hGA.1, hGA.2.1, hGA.2.2.1, hGA.2.2.2.1, hGA.2.2.2.2⟩

/-- Witness for the amended C7 at concrete sessions `"s1"`, `"s2"`. -/
theorem session_isolation_amended_witness :
    plainKey "s1" ∧ plainKey "s2" ∧ ("s1" : String) ≠ "s2" ∧
    DirsClosed stEmpty.dirs ∧
    persistExists stMem2 "s1" = persistExists stEmpty "s1" ∧
    stMem2.collections (sessionDir "s1") = stEmpty.collections (sessionDir "s1") ∧
    stMem2.memory "s1" = stEmpty.memory "s1" ∧
    ((ingestState stEmpty "s1" (.ok pagesDoc) (.ok ())).collections (sessionDir "s2") =
      stEmpty.collections (sessionDir "s2") ∧
    (ingestState stEmpty "s1" (.ok pagesDoc) (.ok ())).memory "s2" = stEmpty.memory "s2" ∧
    (ingestState stEmpty "s1" (.ok pagesDoc) (.ok ())).memoryTTL "s2" =
      stEmpty.memoryTTL "s2" ∧
    persistExists (ingestState stEmpty "s1" (.ok pagesDoc) (.ok ())) "s2" =
      persistExists stEmpty "s2" ∧
    (getAnswer genOk stEmpty "s1" "q").state.collections = stEmpty.collections ∧
    (getAnswer genOk stEmpty "s1" "q").state.dirs = stEmpty.dirs ∧
    (getAnswer genOk stEmpty "s1" "q").state.memory "s2" = stEmpty.memory "s2" ∧
    (getAnswer genOk stEmpty "s1" "q").state.memoryTTL "s2" =
      stEmpty.memoryTTL "s2" ∧
    (getAnswer genOk stMem2 "s1" "q").answer = (getAnswer genOk stEmpty "s1" "q").answer) :=
  ⟨by decide, by decide, by decide, fun _ _ h => Bool.noConfusion h, rfl, rfl, by decide,
   session_isolation_amended "s1" "s2" genOk stEmpty stMem2 "q" (.ok pagesDoc) (.ok ())
     (by decide) (by decide) (by decide) (fun _ _ h => Bool.noConfusion h)
     rfl rfl (by decide)⟩

/-! ### Claims about the model call and memory growth -/

/-- C8 counterexample: the answer path's model call carries
`temperature=1` — the provider's neutral default on its 0–2 scale — not
a setting below it, so the call does not favor determinism over
creativity. -/
theorem temperature_default_counterexample :
    llmConfig ∈ (getAnswer genOk stIng1 "s" "q").llmCalls ∧
    llmConfig.temperature = 1 ∧ ¬ llmConfig.temperature < 1 :=
  ⟨by decide, rfl, by decide⟩

/-- C8 (amended): every language-model call made by an answer request is
given a bounded maximum output length (256 completion tokens) and
temperature exactly 1, the provider-default randomness — bounded output
holds, but the randomness setting is the neutral default rather than one
favoring determinism. -/
theorem llm_call_bounds_amended
    (gen : List Turn → List Text → String → Except String String)
    (st : SysState) (sid q : String) (cfg : LLMConfig)
    (hc : cfg ∈ (getAnswer gen st sid q).llmCalls) :
    cfg.maxCompletionTokens = some 256 ∧ cfg.temperature = 1 := by
  cases hex : persistExists st sid with
  | false =>
    rw [getAnswer_not_exists gen st sid q hex] at hc
    cases hc
  | true =>
    cases hg : gen (st.memory sid) ((st.collections (sessionDir sid)).getD []) q with
    | ok a =>
      rw [getAnswer_exists_ok gen st sid q a hex hg] at hc
      have := List.mem_singleton.mp hc
      subst this
      exact ⟨rfl, rfl⟩
    | error e =>
      rw [getAnswer_exists_err gen st sid q e hex hg] at hc
      have := List.mem_singleton.mp hc
      subst this
      exact ⟨rfl, rfl⟩

/-- Witness for the amended C8 on a concrete answered call. -/
theorem llm_call_bounds_amended_witness :
    llmConfig ∈ (getAnswer genOk stIng1 "s" "q").llmCalls ∧
    (llmConfig.maxCompletionTokens = some 256 ∧ llmConfig.temperature = 1) :=
  ⟨by decide, llm_call_bounds_amended genOk stIng1 "s" "q" llmConfig (by decide)⟩

/-- C9 counterexample: there is no uniform bound on the number of prior
turns handed to the model — for any proposed bound `N`, a session whose
memory holds `N + 1` turns has all of them included in the prompt. -/
theorem prompt_history_unbounded_counterexample :
    ¬ ∃ N : Nat, ∀ (gen : List Turn → List Text → String → Except String String)
        (st : SysState) (sid q : String),
        ((getAnswer gen st sid q).promptHistory).length ≤ N := by
  rintro ⟨N, h⟩
  have h1 := h genOk (stWithMemory (N + 1)) "s" "q"
  rw [getAnswer_promptHistory genOk (stWithMemory (N + 1)) "s" "q" rfl] at h1
  simp [stWithMemory] at h1

/-- C9 (amended): the prior turns included in the composed prompt are
the session's entire Conversation Memory — `ConversationBufferMemory` is
constructed with no turn window and no token budget, so prompt size
grows with history length without bound (the only limit is temporal: the
history key's one-hour expiry). -/
theorem prompt_history_full_memory_amended
    (gen : List Turn → List Text → String → Except String String)
    (st : SysState) (sid q : String)
    (hex : persistExists st sid = true) :
    (getAnswer gen st sid q).promptHistory = st.memory sid :=
  getAnswer_promptHistory gen st sid q hex

/-- Witness for the amended C9 on a session with three stored turns. -/
theorem prompt_history_full_memory_amended_witness :
    persistExists (stWithMemory 3) "s" = true ∧
    (getAnswer genOk (stWithMemory 3) "s" "q").promptHistory =
      (stWithMemory 3).memory "s" :=
  ⟨rfl, prompt_history_full_memory_amended genOk (stWithMemory 3) "s" "q" rfl⟩

/-- C10 counterexample: a failed generation call on a session with a
built index refreshes no expiry — the ttl is applied by `add_message`
(`expire` after the push), which runs only after a successful invoke —
so the session's memory expiry stays unset, refuting "attaches a
3600-second expiry ... refreshed on each call". -/
theorem failed_call_ttl_counterexample :
    persistExists stIng1 "s" = true ∧
    stIng1.memoryTTL "s" = none ∧
    (getAnswer genFail stIng1 "s" "q").state.memoryTTL "s" = none ∧
    ¬ (getAnswer genFail stIng1 "s" "q").state.memoryTTL "s" = some 3600 :=
  ⟨by decide, by decide, by decide, by decide⟩

/-- C10 (amended): on a session with a built index, a *successful*
answer call sets the session's memory expiry to 3600 seconds (the ttl is
applied when the turn is appended, so each recorded answer refreshes
it), while a failed generation leaves the entire state — expiry included
— unchanged; the vector index has no expiry at all: answering never
modifies directories or collections, and only the explicit clear removes
the session's index (which also drops the history and its expiry). -/
theorem memory_ttl_refresh_index_persist
    (gen : List Turn → List Text → String → Except String String)
    (st : SysState) (sid q : String) (a e : String)
    (hex : persistExists st sid = true) :
    (gen (st.memory sid) ((st.collections (sessionDir sid)).getD []) q = .ok a →
      (getAnswer gen st sid q).state.memoryTTL sid = some 3600) ∧
    (gen (st.memory sid) ((st.collections (sessionDir sid)).getD []) q = .error e →
      (getAnswer gen st sid q).state = st) ∧
    (getAnswer gen st sid q).state.collections = st.collections ∧
    (getAnswer gen st sid q).state.dirs = st.dirs ∧
    (clearSession st sid).collections (sessionDir sid) = none ∧
    (clearSession st sid).memoryTTL sid = none := by
  refine ⟨?_, ?_, ?_, ?_, ?_, upd_eq _ _ _⟩
  · intro hg
    rw [getAnswer_exists_ok gen st sid q a hex hg]
    exact upd_eq _ _ _
  · intro hg
    rw [getAnswer_exists_err gen st sid q e hex hg]
  · cases hg : gen (st.memory sid) ((st.collections (sessionDir sid)).getD []) q with
    | ok a2 => rw [getAnswer_exists_ok gen st sid q a2 hex hg]
    | error e2 => rw [getAnswer_exists_err gen st sid q e2 hex hg]
  · cases hg : gen (st.memory sid) ((st.collections (sessionDir sid)).getD []) q with
    | ok a2 => rw [getAnswer_exists_ok gen st sid q a2 hex hg]
    | error e2 => rw [getAnswer_exists_err gen st sid q e2 hex hg]
  · simp [clearSession, hex, underDir_refl]

/-- Witness for the amended C10 at a concrete ingested session. -/
theorem memory_ttl_refresh_index_persist_witness :
    persistExists stIng1 "s" = true ∧
    ((genOk (stIng1.memory "s") ((stIng1.collections (sessionDir "s")).getD []) "q" =
        .ok "stub answer" →
      (getAnswer genOk stIng1 "s" "q").state.memoryTTL "s" = some 3600) ∧
    (genOk (stIng1.memory "s") ((stIng1.collections (sessionDir "s")).getD []) "q" =
        .error "rate limited" →
      (getAnswer genOk stIng1 "s" "q").state = stIng1) ∧
    (getAnswer genOk stIng1 "s" "q").state.collections = stIng1.collections ∧
    (getAnswer genOk stIng1 "s" "q").state.dirs = stIng1.dirs ∧
    (clearSession stIng1 "s").collections (sessionDir "s") = none ∧
    (clearSession stIng1 "s").memoryTTL "s" = none) :=
  ⟨by decide,
   memory_ttl_refresh_index_persist genOk stIng1 "s" "q" "stub answer" "rate limited"
     (by decide)⟩
/-! ### The chunker's output bounds (claim C5)

The amended claim: every chunk the configured splitter emits is nonempty
and at most 1000 units long.  The exact-overlap part of the original
claim is refuted by `chunk_exact_overlap_counterexample` below. -/

theorem trimL_length_le (s : Text) : (trimL s).length ≤ s.length := by
  unfold trimL
  calc ((s.dropWhile Char.isWhitespace).reverse.dropWhile Char.isWhitespace).reverse.length
      = ((s.dropWhile Char.isWhitespace).reverse.dropWhile Char.isWhitespace).length :=
        List.length_reverse _
    _ ≤ (s.dropWhile Char.isWhitespace).reverse.length :=
        (List.dropWhile_suffix _).length_le
    _ = (s.dropWhile Char.isWhitespace).length := List.length_reverse _
    _ ≤ s.length := (List.dropWhile_suffix _).length_le

theorem sumLen_nil : sumLen [] = 0 := rfl

theorem sumLen_cons (d : Text) (l : List Text) :
    sumLen (d :: l) = d.length + sumLen l := by
  simp [sumLen]

theorem sumLen_append_single (l : List Text) (d : Text) :
    sumLen (l ++ [d]) = sumLen l + d.length := by
  simp [sumLen]

theorem joinDocs_spec (l : List Text) (t : Text) (h : joinDocs l = some t) :
    t ≠ [] ∧ t.length ≤ sumLen l := by
  simp only [joinDocs] at h
  split at h
  · exact absurd h (by simp)
  · rename_i hne
    rw [Option.some.injEq] at h
    subst h
    refine ⟨hne, ?_⟩
    calc (trimL l.flatten).length ≤ l.flatten.length := trimL_length_le _
      _ = sumLen l := by rw [List.length_flatten]; rfl

theorem popDoc_spec (cs ov ln : Nat) :
    ∀ (l : List Text) (total : Nat), total = sumLen l →
    (popDoc cs ov ln l total).2 = sumLen (popDoc cs ov ln l total).1 ∧
    ((popDoc cs ov ln l total).2 + ln ≤ cs ∨ (popDoc cs ov ln l total).2 = 0) := by
  intro l
  induction l with
  | nil =>
    intro total ht
    rw [sumLen_nil] at ht
    subst ht
    simp [popDoc, sumLen]
  | cons d rest ih =>
    intro total ht
    rw [popDoc]
    split
    · exact ih (total - d.length) (by rw [ht, sumLen_cons]; omega)
    · rename_i hcond
      exact ⟨ht, by omega⟩

theorem mergeStep_inv (cs ov : Nat) (acc : List Text × List Text × Nat) (d : Text)
    (hdocs : ∀ c ∈ acc.1, c ≠ [] ∧ c.length ≤ cs)
    (htot : acc.2.2 = sumLen acc.2.1) (hle : acc.2.2 ≤ cs) (hd : d.length < cs) :
    (∀ c ∈ (mergeStep cs ov acc d).1, c ≠ [] ∧ c.length ≤ cs) ∧
    (mergeStep cs ov acc d).2.2 = sumLen (mergeStep cs ov acc d).2.1 ∧
    (mergeStep cs ov acc d).2.2 ≤ cs := by
  obtain ⟨docs, current, total⟩ := acc
  simp only at hdocs htot hle
  rw [mergeStep]
  split
  · rename_i hover
    by_cases hcur : current = []
    · subst hcur
      rw [sumLen_nil] at htot
      subst htot
      simp only [ne_eq, not_true_eq_false, if_neg, reduceIte]
      refine ⟨hdocs, by simp [sumLen], by omega⟩
    · have hcur' : current ≠ [] := hcur
      simp only [ne_eq, hcur, not_false_eq_true, if_pos, reduceIte]
      have hpop := popDoc_spec cs ov d.length current total htot
      refine ⟨?_, ?_, ?_⟩
      · intro c hc
        rcases List.mem_append.mp hc with h | h
        · exact hdocs c h
        · cases hj : joinDocs current with
          | none => rw [hj] at h; cases h
          | some t =>
            rw [hj] at h
            simp at h
            subst h
            obtain ⟨hne, hlen⟩ := joinDocs_spec current c hj
            exact ⟨hne, le_trans hlen (htot ▸ hle)⟩
      · rw [sumLen_append_single, hpop.1]
      · rcases hpop.2 with h | h
        · exact h
        · rw [h]; omega
  · rename_i hnover
    refine ⟨hdocs, by rw [sumLen_append_single, htot],
      by show total + List.length d ≤ cs; omega⟩

theorem foldl_mergeStep_inv (cs ov : Nat) :
    ∀ (splits : List Text) (acc : List Text × List Text × Nat),
    (∀ s ∈ splits, s.length < cs) →
    (∀ c ∈ acc.1, c ≠ [] ∧ c.length ≤ cs) →
    acc.2.2 = sumLen acc.2.1 → acc.2.2 ≤ cs →
    (∀ c ∈ (splits.foldl (mergeStep cs ov) acc).1, c ≠ [] ∧ c.length ≤ cs) ∧
    (splits.foldl (mergeStep cs ov) acc).2.2 =
      sumLen (splits.foldl (mergeStep cs ov) acc).2.1 ∧
    (splits.foldl (mergeStep cs ov) acc).2.2 ≤ cs := by
  intro splits
  induction splits with
  | nil => intro acc _ h1 h2 h3; exact ⟨h1, h2, h3⟩
  | cons d rest ih =>
    intro acc hs h1 h2 h3
    rw [List.foldl_cons]
    have hstep := mergeStep_inv cs ov acc d h1 h2 h3 (hs d (by simp))
    exact ih _ (fun s hs' => hs s (by simp [hs'])) hstep.1 hstep.2.1 hstep.2.2

theorem mergeSplits_bound (cs ov : Nat) (splits : List Text)
    (hs : ∀ s ∈ splits, s.length < cs) :
    ∀ c ∈ mergeSplits cs ov splits, c ≠ [] ∧ c.length ≤ cs := by
  intro c hc
  simp only [mergeSplits] at hc
  obtain ⟨h1, h2, h3⟩ :=
    foldl_mergeStep_inv cs ov splits ([], [], 0) hs (by simp) rfl (by simp)
  rcases List.mem_append.mp hc with h | h
  · exact h1 c h
  · cases hj : joinDocs (splits.foldl (mergeStep cs ov) ([], [], 0)).2.1 with
    | none => rw [hj] at h; cases h
    | some t =>
      rw [hj] at h
      simp at h
      subst h
      obtain ⟨hne, hlen⟩ := joinDocs_spec _ c hj
      exact ⟨hne, le_trans hlen (h2 ▸ h3)⟩

theorem chooseSep_spec (dflt text : Text) :
    ∀ (seps : List Text), [] ∈ seps →
    ((chooseSep dflt text seps).1 = [] ∧ (chooseSep dflt text seps).2 = []) ∨
    ((chooseSep dflt text seps).1 ≠ [] ∧ [] ∈ (chooseSep dflt text seps).2) := by
  intro seps
  induction seps with
  | nil => intro h; cases h
  | cons s rest ih =>
    intro h
    rw [chooseSep]
    split
    · exact Or.inl ⟨rfl, rfl⟩
    · rename_i hs
      have hrest : [] ∈ rest := by
        cases h with
        | head => exact absurd rfl hs
        | tail _ h2 => exact h2
      split
      · exact Or.inr ⟨hs, hrest⟩
      · exact ih hrest

theorem splitWithSep_nil_mem (text : Text) (s : Text)
    (h : s ∈ splitWithSep text []) : s.length = 1 := by
  simp only [splitWithSep, if_pos rfl] at h
  obtain ⟨hm, _⟩ := List.mem_filter.mp h
  obtain ⟨c, _, rfl⟩ := List.mem_map.mp hm
  rfl

theorem foldl_splitStep_allgood (cs ov : Nat) (ns : List Text) (sub : Text → List Text) :
    ∀ (splits : List Text) (acc : List Text × List Text),
    (∀ s ∈ splits, s.length < cs) →
    splits.foldl (splitStep cs ov ns sub) acc = (acc.1, acc.2 ++ splits) := by
  intro splits
  induction splits with
  | nil => intro acc _; simp
  | cons d rest ih =>
    intro acc hs
    rw [List.foldl_cons]
    have hd : d.length < cs := hs d (by simp)
    rw [show splitStep cs ov ns sub acc d = (acc.1, acc.2 ++ [d]) from by
      rw [splitStep, if_pos hd]]
    rw [ih _ (fun s h => hs s (by simp [h]))]
    simp

theorem foldl_splitStep_inv (cs ov : Nat) (ns : List Text) (sub : Text → List Text)
    (hns : ns ≠ []) (hsub : ∀ s, ∀ c ∈ sub s, c ≠ [] ∧ c.length ≤ cs) :
    ∀ (splits : List Text) (acc : List Text × List Text),
    (∀ c ∈ acc.1, c ≠ [] ∧ c.length ≤ cs) →
    (∀ s ∈ acc.2, s.length < cs) →
    (∀ c ∈ (splits.foldl (splitStep cs ov ns sub) acc).1, c ≠ [] ∧ c.length ≤ cs) ∧
    (∀ s ∈ (splits.foldl (splitStep cs ov ns sub) acc).2, s.length < cs) := by
  intro splits
  induction splits with
  | nil => intro acc h1 h2; exact ⟨h1, h2⟩
  | cons d rest ih =>
    intro acc h1 h2
    rw [List.foldl_cons]
    by_cases hd : d.length < cs
    · rw [show splitStep cs ov ns sub acc d = (acc.1, acc.2 ++ [d]) from by
        rw [splitStep, if_pos hd]]
      apply ih
      · exact h1
      · intro s hs
        rcases List.mem_append.mp hs with h | h
        · exact h2 s h
        · rw [List.mem_singleton.mp h]; exact hd
    · have hstep : splitStep cs ov ns sub acc d =
          ((if acc.2 ≠ [] then acc.1 ++ mergeSplits cs ov acc.2 else acc.1) ++ sub d,
           []) := by
        rw [splitStep, if_neg hd]
        simp only [if_neg hns]
      rw [hstep]
      apply ih
      · intro c hc
        rcases List.mem_append.mp hc with h | h
        · by_cases hcur : acc.2 = []
          · rw [if_neg (by simp [hcur])] at h
            exact h1 c h
          · rw [if_pos hcur] at h
            rcases List.mem_append.mp h with h' | h'
            · exact h1 c h'
            · exact mergeSplits_bound cs ov acc.2 h2 c h'
        · exact hsub d c h
      · intro s hs
        cases hs

theorem splitTextRec_bound (cs ov : Nat) (hcs : 1 < cs) :
    ∀ (fuel : Nat) (seps : List Text) (text : Text), [] ∈ seps →
    ∀ c ∈ splitTextRec cs ov fuel seps text, c ≠ [] ∧ c.length ≤ cs := by
  intro fuel
  induction fuel with
  | zero => intro seps text _ c hc; cases hc
  | succ f ih =>
    intro seps text hseps c hc
    simp only [splitTextRec] at hc
    rcases chooseSep_spec (seps.getLastD []) text seps hseps with ⟨hs1, hs2⟩ | ⟨hs1, hs2⟩
    · rw [hs1, hs2] at hc
      have hall : ∀ s ∈ splitWithSep text [], s.length < cs := fun s h => by
        rw [splitWithSep_nil_mem text s h]; exact hcs
      rw [foldl_splitStep_allgood cs ov [] _ (splitWithSep text []) ([], []) hall] at hc
      simp only [List.nil_append] at hc
      by_cases hsp : splitWithSep text [] = []
      · rw [hsp] at hc
        simp at hc
      · rw [if_pos hsp] at hc
        exact mergeSplits_bound cs ov _ hall c hc
    · have hns : (chooseSep (seps.getLastD []) text seps).2 ≠ [] :=
        List.ne_nil_of_mem hs2
      have hsub : ∀ s, ∀ c2 ∈
          splitTextRec cs ov f (chooseSep (seps.getLastD []) text seps).2 s,
          c2 ≠ [] ∧ c2.length ≤ cs :=
        fun s c2 h2 => ih (chooseSep (seps.getLastD []) text seps).2 s hs2 c2 h2
      obtain ⟨hfin, hgood⟩ := foldl_splitStep_inv cs ov _ _ hns hsub
        (splitWithSep text (chooseSep (seps.getLastD []) text seps).1) ([], [])
        (by simp) (by simp)
      set acc := (splitWithSep text (chooseSep (seps.getLastD []) text seps).1).foldl
        (splitStep cs ov (chooseSep (seps.getLastD []) text seps).2
          (splitTextRec cs ov f (chooseSep (seps.getLastD []) text seps).2)) ([], []) with hacc
      by_cases hne : acc.2 = []
      · rw [if_neg (by simp [hne])] at hc
        exact hfin c hc
      · rw [if_pos hne] at hc
        rcases List.mem_append.mp hc with h | h
        · exact hfin c h
        · exact mergeSplits_bound cs ov _ hgood c h

/-- C5 (amended): for every document text (in particular any of length at
least the configured chunk size 1000), every chunk the configured
splitter produces is nonempty and of length at most 1000 units.
Consecutive chunks do **not** in general share exactly the configured
100 units at the boundary — the splitter cuts at separator occurrences
and carries whole pieces totalling at most the overlap, which can leave
no shared text at all (see the counterexample). -/
theorem chunk_bounds_amended (t : Text) (_h : 1000 ≤ t.length) :
    ∀ c ∈ splitText t, c ≠ [] ∧ c.length ≤ 1000 := by
  intro c hc
  exact splitTextRec_bound 1000 100 (by norm_num) (defaultSeparators.length + 1)
    defaultSeparators t (by simp [defaultSeparators]) c hc

/-- Witness for the amended C5 on a 1000-unit document. -/
theorem chunk_bounds_amended_witness :
    1000 ≤ (List.replicate 1000 'a' : Text).length ∧
    ∀ c ∈ splitText (List.replicate 1000 'a'), c ≠ [] ∧ c.length ≤ 1000 :=
  ⟨by simp, chunk_bounds_amended (List.replicate 1000 'a') (by simp)⟩

/-! ### Evaluation of the splitter on the probe document -/

theorem occursIn_cons_ne (c : Char) (l : Text) (d : Char) (ds : Text) (h : c ≠ d) :
    occursIn (c :: l) (d :: ds) = occursIn l (d :: ds) := by
  simp [occursIn, startsWithL, h]

theorem occursIn_skip_replicate (c d : Char) (ds : Text) (h : c ≠ d) :
    ∀ (n : Nat) (rest : Text),
    occursIn (List.replicate n c ++ rest) (d :: ds) = occursIn rest (d :: ds) := by
  intro n
  induction n with
  | zero => intro rest; simp
  | succ k ih =>
    intro rest
    rw [List.replicate_succ, List.cons_append, occursIn_cons_ne c _ d ds h, ih]

theorem occursIn_probe_nn : occursIn probeText ['\n', '\n'] = false := by
  rw [probeText, occursIn_skip_replicate 'a' '\n' ['\n'] (by decide),
    occursIn_cons_ne ' ' _ '\n' ['\n'] (by decide),
    show List.replicate 100 'b' = List.replicate 100 'b' ++ [] by simp,
    occursIn_skip_replicate 'b' '\n' ['\n'] (by decide)]
  rfl

theorem occursIn_probe_n : occursIn probeText ['\n'] = false := by
  rw [probeText, occursIn_skip_replicate 'a' '\n' [] (by decide),
    occursIn_cons_ne ' ' _ '\n' [] (by decide),
    show List.replicate 100 'b' = List.replicate 100 'b' ++ [] by simp,
    occursIn_skip_replicate 'b' '\n' [] (by decide)]
  rfl

theorem occursIn_probe_sp : occursIn probeText [' '] = true := by
  rw [probeText, occursIn_skip_replicate 'a' ' ' [] (by decide)]
  simp [occursIn, startsWithL]

theorem chooseSep_probe :
    chooseSep (defaultSeparators.getLastD []) probeText defaultSeparators =
      ([' '], [[]]) := by
  rw [defaultSeparators]
  rw [chooseSep, if_neg (by decide)]
  rw [if_neg (by rw [occursIn_probe_nn]; simp)]
  rw [chooseSep, if_neg (by decide)]
  rw [if_neg (by rw [occursIn_probe_n]; simp)]
  rw [chooseSep, if_neg (by decide)]
  rw [if_pos (by rw [occursIn_probe_sp])]

theorem splitOnFuel_skip_replicate (d : Char) (ds : Text) (c : Char) (hcd : c ≠ d) :
    ∀ (n fuel : Nat) (rest p : Text) (ps : List Text),
    splitOnFuel (d :: ds) fuel rest = p :: ps →
    splitOnFuel (d :: ds) (n + fuel) (List.replicate n c ++ rest) =
      (List.replicate n c ++ p) :: ps := by
  intro n
  induction n with
  | zero =>
    intro fuel rest p ps h
    simpa using h
  | succ k ih =>
    intro fuel rest p ps h
    rw [List.replicate_succ, List.cons_append]
    rw [show k + 1 + fuel = (k + fuel) + 1 from by omega]
    rw [splitOnFuel]
    rw [if_neg (by simp [startsWithL, hcd])]
    rw [ih fuel rest p ps h]
    rfl

theorem splitOnFuel_terminal (d : Char) (ds : Text) (c : Char) (hcd : c ≠ d) (n : Nat) :
    splitOnFuel (d :: ds) (n + 1) (List.replicate n c) = [List.replicate n c] := by
  have h0 : splitOnFuel (d :: ds) 1 [] = [[]] := rfl
  have := splitOnFuel_skip_replicate d ds c hcd n 1 [] [] [] h0
  simpa using this

theorem splitOnList_probe :
    splitOnList [' '] probeText = [List.replicate 950 'a', List.replicate 100 'b'] := by
  have hrest : splitOnFuel [' '] 102 (' ' :: List.replicate 100 'b') =
      [] :: [List.replicate 100 'b'] := by
    rw [show (102 : Nat) = 101 + 1 from rfl, splitOnFuel]
    rw [if_pos (by simp [startsWithL])]
    rw [show ((' ' :: List.replicate 100 'b').drop [' '].length) =
      List.replicate 100 'b' from rfl]
    rw [show (101 : Nat) = 100 + 1 from rfl,
      splitOnFuel_terminal ' ' [] 'b' (by decide) 100]
  have hlen : probeText.length + 1 = 950 + 102 := by
    simp [probeText]
  rw [splitOnList, hlen, probeText]
  rw [splitOnFuel_skip_replicate ' ' [] 'a' (by decide) 950 102 _ _ _ hrest]
  simp

theorem splitWithSep_probe :
    splitWithSep probeText [' '] =
      [List.replicate 950 'a', ' ' :: List.replicate 100 'b'] := by
  rw [splitWithSep, if_neg (by decide), splitOnList_probe]
  simp [List.filter]

theorem dropWhile_ws_replicate (n : Nat) (c : Char) (h : c.isWhitespace = false) :
    List.dropWhile Char.isWhitespace (List.replicate n c) = List.replicate n c := by
  cases n with
  | zero => rfl
  | succ k =>
    rw [List.replicate_succ, List.dropWhile_cons, h]
    simp

theorem trimL_replicate (n : Nat) (c : Char) (h : c.isWhitespace = false) :
    trimL (List.replicate n c) = List.replicate n c := by
  unfold trimL
  rw [dropWhile_ws_replicate n c h, List.reverse_replicate,
    dropWhile_ws_replicate n c h, List.reverse_replicate]

theorem trimL_space_bs :
    trimL (' ' :: List.replicate 100 'b') = List.replicate 100 'b' := by
  unfold trimL
  rw [List.dropWhile_cons]
  simp only [show (' '.isWhitespace) = true from rfl, if_true]
  rw [dropWhile_ws_replicate 100 'b' (by decide), List.reverse_replicate,
    dropWhile_ws_replicate 100 'b' (by decide), List.reverse_replicate]

theorem joinDocs_a950 :
    joinDocs [List.replicate 950 'a'] = some (List.replicate 950 'a') := by
  simp only [joinDocs, List.flatten_cons, List.flatten_nil, List.append_nil]
  rw [trimL_replicate 950 'a' (by decide)]
  rw [if_neg (by simp)]

theorem joinDocs_sb :
    joinDocs [' ' :: List.replicate 100 'b'] = some (List.replicate 100 'b') := by
  simp only [joinDocs, List.flatten_cons, List.flatten_nil, List.append_nil]
  rw [trimL_space_bs]
  rw [if_neg (by simp)]

theorem popDoc_probe :
    popDoc 1000 100 101 [List.replicate 950 'a'] 950 = ([], 0) := by
  rw [popDoc, if_pos (Or.inl (by norm_num))]
  rw [show (950 - (List.replicate 950 'a').length) = 0 from by simp]
  rfl

theorem mergeStep1 :
    mergeStep 1000 100 ([], [], 0) (List.replicate 950 'a') =
      ([], [List.replicate 950 'a'], 950) := by
  rw [mergeStep]
  rw [if_neg (by simp)]
  simp

theorem mergeStep2 :
    mergeStep 1000 100 ([], [List.replicate 950 'a'], 950) (' ' :: List.replicate 100 'b') =
      ([List.replicate 950 'a'], [' ' :: List.replicate 100 'b'], 101) := by
  rw [mergeStep]
  rw [if_pos (by simp)]
  simp only [ne_eq, reduceCtorEq, not_false_eq_true, if_pos]
  rw [joinDocs_a950]
  rw [show (' ' :: List.replicate 100 'b').length = 101 from by simp]
  rw [popDoc_probe]
  simp

theorem mergeSplits_probe :
    mergeSplits 1000 100 [List.replicate 950 'a', ' ' :: List.replicate 100 'b'] =
      [List.replicate 950 'a', List.replicate 100 'b'] := by
  simp only [mergeSplits, List.foldl_cons, List.foldl_nil]
  rw [mergeStep1, mergeStep2]
  simp only []
  rw [joinDocs_sb]
  rfl

theorem splitStep_good (cs ov : Nat) (ns : List Text) (sub : Text → List Text)
    (acc : List Text × List Text) (s : Text) (h : s.length < cs) :
    splitStep cs ov ns sub acc s = (acc.1, acc.2 ++ [s]) := by
  rw [splitStep, if_pos h]

theorem splitText_probe :
    splitText probeText = [List.replicate 950 'a', List.replicate 100 'b'] := by
  show splitTextRec 1000 100 5 defaultSeparators probeText = _
  rw [show (5 : Nat) = 4 + 1 from rfl]
  simp only [splitTextRec]
  rw [chooseSep_probe]
  simp only []
  rw [splitWithSep_probe]
  rw [List.foldl_cons, splitStep_good _ _ _ _ _ _ (by simp),
    List.foldl_cons, splitStep_good _ _ _ _ _ _ (by simp), List.foldl_nil]
  simp only [List.nil_append]
  rw [if_pos (by simp)]
  simp only [List.singleton_append]
  rw [mergeSplits_probe]

/-- C5 counterexample: the probe document (950 `a`s, a space, 100 `b`s;
1051 ≥ 1000 units) is split into the chunks `a^950` and `b^100` — the
boundary pair shares no text at all, let alone exactly 100 units, so the
exact-overlap conjunct of the claim fails at this input (while every
chunk length stays ≤ 1000). -/
theorem chunk_exact_overlap_counterexample :
    1000 ≤ probeText.length ∧
    splitText probeText = [List.replicate 950 'a', List.replicate 100 'b'] ∧
    ¬ ExactOverlap 100 (splitText probeText) := by
  refine ⟨by simp [probeText], splitText_probe, ?_⟩
  rw [splitText_probe]
  intro h
  have h1 := h (List.replicate 950 'a', List.replicate 100 'b')
    (by simp [adjacentPairs])
  rw [lastN, firstN] at h1
  simp only [List.length_replicate] at h1
  rw [List.drop_replicate, List.take_replicate] at h1
  norm_num at h1
  exact absurd h1 (by decide)
